import Mathlib

/-!
Shallow embedding of the `create-release` GitHub Action (`src/index.js`).

The script is a single sequential orchestrator: it lists the repository's
tags, enriches tags that lack commit metadata, filters out tags without a
resolvable commit date, sorts the dated tags newest-first (stable sort by
commit date, descending), creates the requested version tag if absent,
resolves the second-to-last tag's commit, builds a changelog (merged-PR
lines, falling back to commit-range lines, falling back to all commits of
the single tag), creates a release, attaches asset files, and posts a
Microsoft Teams notification.

We model every external collaborator (GitHub REST API, filesystem, webhook)
as a field of an `Env` record, and the run as a pure function from the
action inputs and the environment to the ordered list of observable effects
(`Event`s) the script performs, mirroring `src/index.js` line by line.
Dates are modelled as already-parsed natural-number timestamps (`new Date`
millisecond values); a missing or empty (falsy) date string is `none`.
-/

namespace CreateRelease

/-- A commit signature (`committer` or `author` as embedded in a tag's
commit object); `date` is `none` when the field is absent or falsy. -/
structure Sig where
  date : Option Nat
deriving Repr, DecidableEq

/-- Commit metadata carried by a tag (inline from `listTags` or fetched by
`git.getCommit` during enrichment). -/
structure CommitMeta where
  sha : String
  committer : Option Sig := none
  author : Option Sig := none
deriving Repr, DecidableEq

/-- A repository tag as returned by `repos.listTags`: a name, optional
commit metadata, and an optional top-level sha. -/
structure Tag where
  name : String
  commit : Option CommitMeta := none
  sha : Option String := none
deriving Repr, DecidableEq

/-- A closed pull request as returned by `pulls.list` (`state: "closed"`,
`sort: "updated"`, `direction: "desc"`, `per_page: 100`). `mergedAt` is
`none` for closed-but-unmerged PRs. -/
structure PR where
  title : String
  userLogin : String
  number : Nat
  htmlUrl : String
  mergedAt : Option Nat
deriving Repr, DecidableEq

/-- A commit as listed by `repos.compareCommits` / `repos.listCommits`. -/
structure CommitItem where
  sha : String
  message : String
deriving Repr, DecidableEq

/-- The Microsoft Teams MessageCard payload built at src/index.js lines
228-235 (fields `summary`, `title`, `text`; `themeColor` and the constant
`@type`/`@context` fields carry no run-dependent data and are omitted). -/
structure TeamsCard where
  summary : String
  title : String
  text : String
deriving Repr, DecidableEq

/-- The action inputs read by `getInput` at src/index.js lines 8-12, plus
the invocation commit `context.sha`. -/
structure Inputs where
  version : String
  name : String
  webhookUrl : String
  filesInput : String
  contextSha : String
deriving Repr, DecidableEq

/-- The environment: responses of the GitHub REST API, the filesystem and
the upload channel, as consulted by the script.

* `gitGetCommit` models `octokit.rest.git.getCommit`; `none` means the call
  throws (the tag is then dropped by `enrichTagWithCommit`).
* `getTagObj` models `octokit.rest.git.getTag`: `some s` is the annotated
  tag object's target commit sha (`tagObject.object.sha`), `none` means the
  call throws (lightweight tag).
* `repoCommitDate` models `octokit.rest.repos.getCommit`, returning the
  committer date (`commitInfo.commit.committer.date`) of the given ref.
* `pulls` is the `pulls.list` response page (closed PRs, server-sorted by
  update time, newest first, at most 100).
* `compareCommits base head` models `repos.compareCommits`, whose API
  contract returns exactly the commits in the range `base` (exclusive) to
  `head` (inclusive).
* `listCommits sha` models `repos.listCommits`, returning the commits
  reachable from `sha`.
* `fileExists` models `existsSync`; `uploadOk f` is `false` when the
  `uploadReleaseAsset` call for file `f` rejects. -/
structure Env where
  tags : List Tag
  gitGetCommit : String → Option CommitMeta
  getTagObj : String → Option String
  repoCommitDate : String → Nat
  pulls : List PR
  compareCommits : String → String → List CommitItem
  listCommits : String → List CommitItem
  releaseId : Nat
  fileExists : String → Bool
  uploadOk : String → Bool

/-- The observable effects of one run, in execution order. -/
inductive Event where
  | listTags
  | getCommit (sha : String)
  | createRef (ref : String) (sha : String)
  | getTag (tagSha : String)
  | repoGetCommit (ref : String)
  | listPulls
  | compareCommits (base : String) (head : String)
  | listCommits (sha : String)
  | createRelease (tagName : String) (relName : String) (body : String)
  | uploadAsset (releaseId : Nat) (assetName : String)
  | warn (msg : String)
  | setFailed (msg : String)
  | httpPost (url : String) (payload : TeamsCard)
deriving Repr, DecidableEq

/-- `getTagDate` (src/index.js lines 22-30): the committer date if present
and truthy, else the author date if present and truthy, else `null`. -/
def getTagDate (t : Tag) : Option Nat :=
  match t.commit with
  | none => none
  | some c => (c.committer.bind Sig.date).orElse (fun _ => c.author.bind Sig.date)

/-- The sha used to fetch commit info for a tag lacking it
(src/index.js line 36, in the branch where `tag.commit` is falsy):
`tag.sha || tag.name`. -/
def fallbackSha (t : Tag) : String :=
  match t.sha with
  | some s => if s = "" then t.name else s
  | none => t.name

/-- `enrichTagWithCommit` (src/index.js lines 33-52) as used by the loop at
lines 55-65: a tag that already has commit info is kept as is; otherwise
`git.getCommit` is consulted and the tag is dropped when it fails. -/
def enrichTag (env : Env) (t : Tag) : Option Tag :=
  match t.commit with
  | some _ => some t
  | none => (env.gitGetCommit (fallbackSha t)).map (fun cm => { t with commit := some cm })

/-- `tagsWithCommits` (src/index.js lines 55-65). -/
def tagsWithCommits (env : Env) : List Tag :=
  env.tags.filterMap (enrichTag env)

/-- The `git.getCommit` calls issued by the enrichment loop, in order. -/
def enrichTrace (env : Env) : List Event :=
  env.tags.flatMap (fun t =>
    match t.commit with
    | some _ => []
    | none => [Event.getCommit (fallbackSha t)])

/-- A tag that survived the date filter: the tag, its (necessarily present)
commit metadata, and its resolved date (`_tagDate`). -/
structure DTag where
  tag : Tag
  cm : CommitMeta
  date : Nat
deriving Repr, DecidableEq

/-- The `.map(tag => ({...tag, _tagDate})).filter(tag => tag._tagDate)`
stage of src/index.js lines 68-70.  `getTagDate` returns `none` whenever
`tag.commit` is absent, so pairing each kept tag with its commit metadata
is faithful. -/
def datedTags (ts : List Tag) : List DTag :=
  ts.filterMap (fun t =>
    match t.commit with
    | none => none
    | some c => (getTagDate t).map (fun d => ⟨t, c, d⟩))

/-- The JS comparator `(a, b) => b._tagDate - a._tagDate`: `a` may stay
before `b` exactly when `b`'s date is at most `a`'s (descending order,
ties stable). -/
def tagLE (a b : DTag) : Bool :=
  decide (b.date ≤ a.date)

/-- `sortedTags` (src/index.js lines 68-71): the dated tags, stably sorted
by commit date, descending (`Array.prototype.sort` is stable). -/
def sortedTags (env : Env) : List DTag :=
  (datedTags (tagsWithCommits env)).mergeSort tagLE

/-- `tagExists` (src/index.js line 74): exact name match against the raw
tag list. -/
def tagExists (version : String) (env : Env) : Bool :=
  env.tags.any (fun t => t.name == version)

/-- The `createRef` call of src/index.js lines 77-85, made only when the
version tag is absent. -/
def createRefTrace (inp : Inputs) (env : Env) : List Event :=
  if tagExists inp.version env then []
  else [Event.createRef ("refs/tags/" ++ inp.version) inp.contextSha]

/-- Resolution of the second-to-last tag's commit sha (src/index.js lines
92-104): try the annotated-tag dereference `git.getTag`, falling back to
the tag's own commit sha on failure (lightweight tag). -/
def resolveSecond (env : Env) (d1 : DTag) : String :=
  match env.getTagObj d1.cm.sha with
  | some s => s
  | none => d1.cm.sha

/-- Splitting a character list at every separator character, with the
semantics of JavaScript `String.prototype.split` on a single-character
class: adjacent separators and separators at either end produce empty
pieces, and the empty string yields one empty piece. -/
def splitChars (p : Char → Bool) : List Char → List (List Char)
  | [] => [[]]
  | c :: cs =>
    if p c then [] :: splitChars p cs
    else
      match splitChars p cs with
      | [] => [[c]]
      | g :: gs => (c :: g) :: gs

/-- The whitespace characters stripped by `String.prototype.trim`
(modelled over the ASCII whitespace set). -/
def jsWS (c : Char) : Bool :=
  c == ' ' || c == '\t' || c == '\n' || c == '\r'

/-- `String.prototype.trim` over a character list. -/
def trimChars (cs : List Char) : List Char :=
  ((cs.dropWhile jsWS).reverse.dropWhile jsWS).reverse

/-- First line of a commit message: `message.split("\n")[0]`, i.e. the
characters before the first newline. -/
def firstLine (s : String) : String :=
  (s.toList.takeWhile (fun c => c != '\n')).asString

/-- `sha.substring(0, 7)`. -/
def shortSha (s : String) : String :=
  (s.toList.take 7).asString

/-- One commit-based changelog line (src/index.js lines 158-163):
`- <first line of message> (<7-char sha>)`. -/
def commitLine (c : CommitItem) : String :=
  "- " ++ firstLine c.message ++ " (" ++ shortSha c.sha ++ ")"

/-- One PR-based changelog line (src/index.js lines 141-144):
`- <title> by @<author> in [#<number>](<url>)`. -/
def prLine (pr : PR) : String :=
  "- " ++ pr.title ++ " by @" ++ pr.userLogin ++ " in [#" ++ toString pr.number ++ "](" ++ pr.htmlUrl ++ ")"

/-- The PR filter of src/index.js lines 135-137: a non-null `merged_at`
strictly greater than the second-to-last tag's commit date. -/
def prQualifies (d : Nat) (pr : PR) : Bool :=
  match pr.mergedAt with
  | some m => decide (d < m)
  | none => false

/-- `mergedPRs` (src/index.js lines 135-137). -/
def mergedPRs (env : Env) (d : Nat) : List PR :=
  env.pulls.filter (prQualifies d)

/-- The changelog of the two-or-more-dated-tags branch (src/index.js lines
125-166): PR lines when any merged PR qualifies, else commit lines over
the compare range. -/
def changelogTwoPlus (env : Env) (d : Nat) (prevSha lastSha : String) : String :=
  let ps := mergedPRs env d
  if ps.isEmpty then
    String.intercalate "\n" ((env.compareCommits prevSha lastSha).map commitLine)
  else
    String.intercalate "\n" (ps.map prLine)

/-- The changelog of the single-dated-tag branch (src/index.js lines
167-184): all commits reachable from the latest tag. -/
def changelogSingle (env : Env) (lastSha : String) : String :=
  String.intercalate "\n" ((env.listCommits lastSha).map commitLine)

/-- The rendered changelog of a run, as a function of the environment
(src/index.js lines 115-184; empty when the run fails before building
one). -/
def changeLogOf (env : Env) : String :=
  match sortedTags env with
  | [] => ""
  | [d0] => changelogSingle env d0.cm.sha
  | d0 :: d1 :: _ =>
    let prevSha := resolveSecond env d1
    changelogTwoPlus env (env.repoCommitDate prevSha) prevSha d0.cm.sha

/-- `filesInput.split(/[,\n]/).map(f => f.trim()).filter(Boolean)`
(src/index.js lines 200-203). -/
def parseFiles (s : String) : List String :=
  ((splitChars (fun c => c == ',' || c == '\n') s.toList).map
    (fun cs => (trimChars cs).asString)).filter (fun f => f != "")

/-- `require("path").basename`: the last `/`-separated component. -/
def basename (p : String) : String :=
  ((splitChars (fun c => c == '/') p.toList).getLastD []).asString

/-- The per-file body of the attachment loop (src/index.js lines 204-223):
warn and skip a missing file; otherwise attempt the upload, and on upload
failure log a warning and continue. -/
def attachFile (env : Env) (f : String) : List Event :=
  if env.fileExists f then
    if env.uploadOk f then
      [Event.uploadAsset env.releaseId (basename f)]
    else
      [Event.uploadAsset env.releaseId (basename f),
       Event.warn ("Could not attach " ++ f ++ " to release")]
  else
    [Event.warn (f ++ " not found, skipping attachment")]

/-- The attachment section (src/index.js lines 198-224), guarded by a
truthy `filesInput`. -/
def assetsTrace (env : Env) (filesInput : String) : List Event :=
  if filesInput == "" then []
  else (parseFiles filesInput).flatMap (attachFile env)

/-- `changeLog || "No changelog available."` (src/index.js line 234). -/
def teamsText (changeLog : String) : String :=
  if changeLog == "" then "No changelog available." else changeLog

/-- The Teams MessageCard built at src/index.js lines 228-235. -/
def teamsCard (name version changeLog : String) : TeamsCard :=
  { summary := "New release: " ++ name ++ " " ++ version
  , title := "New release: " ++ name ++ " " ++ version
  , text := teamsText changeLog }

/-- The notification section (src/index.js lines 227-256): one POST to the
webhook URL when one is provided. -/
def notifyTrace (inp : Inputs) (changeLog : String) : List Event :=
  if inp.webhookUrl == "" then []
  else [Event.httpPost inp.webhookUrl (teamsCard inp.name inp.version changeLog)]

/-- The full run (src/index.js lines 6-261) as its ordered effect trace.
Control flow follows the source exactly: list tags, enrich, create the
version tag if absent, resolve the second-to-last tag when two or more
dated tags exist, fail when no dated tag remains or the latest tag's sha
is falsy, build the changelog, create the release, attach assets, notify. -/
def run (inp : Inputs) (env : Env) : List Event :=
  let pre := Event.listTags :: enrichTrace env
  let refEvts := createRefTrace inp env
  match sortedTags env with
  | [] =>
    pre ++ refEvts ++ [Event.setFailed "No valid tags with commit information found."]
  | [d0] =>
    if d0.cm.sha == "" then
      pre ++ refEvts ++ [Event.setFailed "Latest tag does not have a commit SHA."]
    else
      let changeLog := changelogSingle env d0.cm.sha
      pre ++ refEvts
        ++ [Event.listCommits d0.cm.sha,
            Event.createRelease inp.version ("Release " ++ inp.version) changeLog]
        ++ assetsTrace env inp.filesInput
        ++ notifyTrace inp changeLog
  | d0 :: d1 :: _ =>
    let prevSha := resolveSecond env d1
    let d := env.repoCommitDate prevSha
    let resEvts := [Event.getTag d1.cm.sha, Event.repoGetCommit prevSha]
    if d0.cm.sha == "" then
      pre ++ refEvts ++ resEvts ++ [Event.setFailed "Latest tag does not have a commit SHA."]
    else
      let changeLog := changelogTwoPlus env d prevSha d0.cm.sha
      let clEvts :=
        Event.listPulls ::
          (if (mergedPRs env d).isEmpty then [Event.compareCommits prevSha d0.cm.sha] else [])
      pre ++ refEvts ++ resEvts ++ clEvts
        ++ [Event.createRelease inp.version ("Release " ++ inp.version) changeLog]
        ++ assetsTrace env inp.filesInput
        ++ notifyTrace inp changeLog

/-- Event classifiers used to project a trace onto one kind of call. -/
def isCreateRef : Event → Bool
  | .createRef _ _ => true
  | _ => false

def isCreateRelease : Event → Bool
  | .createRelease _ _ _ => true
  | _ => false

def isSetFailed : Event → Bool
  | .setFailed _ => true
  | _ => false

def isPost : Event → Bool
  | .httpPost _ _ => true
  | _ => false

def isUpload : Event → Bool
  | .uploadAsset _ _ => true
  | _ => false

def isListPulls : Event → Bool
  | .listPulls => true
  | _ => false

def isWarn : Event → Bool
  | .warn _ => true
  | _ => false

/-- The warnings the attachment loop emits for one file. -/
def attachWarnings (env : Env) (f : String) : List Event :=
  if env.fileExists f then
    if env.uploadOk f then []
    else [Event.warn ("Could not attach " ++ f ++ " to release")]
  else [Event.warn (f ++ " not found, skipping attachment")]

/-- The dates of all dated tags, in input order. -/
def allDates (env : Env) : List Nat :=
  (datedTags (tagsWithCommits env)).map DTag.date

/-- `merged_at` with `null` read as 0, used to compare merge recency. -/
def mergedAtD (pr : PR) : Nat :=
  pr.mergedAt.getD 0

/-! Concrete fixtures used by witnesses and counterexamples. -/

def cmA : CommitMeta := { sha := "aaaaaaaaaa", committer := some { date := some 100 } }

def cmB : CommitMeta := { sha := "bbbbbbbbbb", committer := some { date := some 200 } }

def tagA : Tag := { name := "v1", commit := some cmA }

def tagB : Tag := { name := "v2", commit := some cmB }

def dtA : DTag := ⟨tagA, cmA, 100⟩

def dtB : DTag := ⟨tagB, cmB, 200⟩

def prX : PR := { title := "T", userLogin := "u", number := 3, htmlUrl := "hu", mergedAt := some 150 }

/-- A two-dated-tags environment with one qualifying merged PR. -/
def envTwo : Env :=
  { tags := [tagA, tagB], gitGetCommit := fun _ => none, getTagObj := fun _ => none
  , repoCommitDate := fun _ => 100, pulls := [prX], compareCommits := fun _ _ => []
  , listCommits := fun _ => [], releaseId := 7, fileExists := fun _ => false
  , uploadOk := fun _ => true }

def inpHook : Inputs :=
  { version := "v9", name := "p", webhookUrl := "https://h", filesInput := "", contextSha := "sha9" }

/-- A concrete environment with an empty tag list, for witnesses. -/
def envNoTags : Env :=
  { tags := [], gitGetCommit := fun _ => none, getTagObj := fun _ => none
  , repoCommitDate := fun _ => 0, pulls := [], compareCommits := fun _ _ => []
  , listCommits := fun _ => [], releaseId := 0, fileExists := fun _ => false
  , uploadOk := fun _ => true }

/-- A concrete input record, for witnesses. -/
def inpBase : Inputs :=
  { version := "v1", name := "p", webhookUrl := "", filesInput := "", contextSha := "sha9" }

/-- A one-dated-tag environment whose tag reaches one commit. -/
def envOne : Env :=
  { tags := [tagB], gitGetCommit := fun _ => none, getTagObj := fun _ => none
  , repoCommitDate := fun _ => 0, pulls := [prX], compareCommits := fun _ _ => []
  , listCommits := fun _ => [{ sha := "cccccccccc", message := "first\nmore" }]
  , releaseId := 0, fileExists := fun _ => false, uploadOk := fun _ => true }

/-- PRs listed newest-by-update first but merged in the opposite order:
the older-merged PR was updated last, so the API returns it first. -/
def prOld : PR := { title := "older", userLogin := "alice", number := 1, htmlUrl := "uA", mergedAt := some 10 }

def prNew : PR := { title := "newer", userLogin := "bob", number := 2, htmlUrl := "uB", mergedAt := some 20 }

/-- A two-dated-tags environment whose closed-PR listing is not in
merge-time order. -/
def envCex : Env :=
  { tags := [tagA, tagB], gitGetCommit := fun _ => none, getTagObj := fun _ => none
  , repoCommitDate := fun _ => 0, pulls := [prOld, prNew], compareCommits := fun _ _ => []
  , listCommits := fun _ => [], releaseId := 0, fileExists := fun _ => false
  , uploadOk := fun _ => true }

/-- A two-dated-tags environment with no qualifying PR and an empty compare
range, so the rendered changelog is the empty string. -/
def envEmptyCL : Env :=
  { tags := [tagA, tagB], gitGetCommit := fun _ => none, getTagObj := fun _ => none
  , repoCommitDate := fun _ => 100, pulls := [], compareCommits := fun _ _ => []
  , listCommits := fun _ => [], releaseId := 0, fileExists := fun _ => false
  , uploadOk := fun _ => true }

/-- An environment where `a.txt` exists and uploads, `missing.txt` does not
exist, and `c.bin` exists but its upload fails. -/
def envFiles : Env :=
  { tags := [tagA, tagB], gitGetCommit := fun _ => none, getTagObj := fun _ => none
  , repoCommitDate := fun _ => 100, pulls := [prX], compareCommits := fun _ _ => []
  , listCommits := fun _ => [], releaseId := 7
  , fileExists := fun f => f == "a.txt" || f == "c.bin"
  , uploadOk := fun f => f == "a.txt" }

def inpFiles : Inputs :=
  { version := "v9", name := "p", webhookUrl := "", filesInput := "a.txt, missing.txt,c.bin"
  , contextSha := "s" }

/-! Helper lemmas: projecting the run trace onto one kind of call. -/

theorem parseFiles_empty : parseFiles "" = [] := rfl

theorem assetsTrace_eq (env : Env) (fi : String) :
    assetsTrace env fi = (parseFiles fi).flatMap (attachFile env) := by
  unfold assetsTrace
  by_cases h : fi == ""
  · rw [if_pos h]
    have h2 : fi = "" := eq_of_beq h
    subst h2
    rfl
  · rw [if_neg h]

theorem filter_enrichTrace (env : Env) (p : Event → Bool)
    (hp : ∀ s, p (Event.getCommit s) = false) :
    (enrichTrace env).filter p = [] := by
  rw [List.filter_eq_nil_iff]
  intro e he
  rcases List.mem_flatMap.mp he with ⟨t, _, hmem⟩
  cases hc : t.commit with
  | some c => rw [hc] at hmem; simp at hmem
  | none =>
    rw [hc] at hmem
    simp at hmem
    rw [hmem, hp]
    simp

theorem filter_createRefTrace (inp : Inputs) (env : Env) (p : Event → Bool)
    (hp : ∀ r s, p (Event.createRef r s) = false) :
    (createRefTrace inp env).filter p = [] := by
  unfold createRefTrace
  split
  · rfl
  · simp [hp]

theorem filter_createRefTrace_self (inp : Inputs) (env : Env) :
    (createRefTrace inp env).filter isCreateRef = createRefTrace inp env := by
  unfold createRefTrace
  split
  · rfl
  · simp [isCreateRef]

theorem filter_attachFile (env : Env) (f : String) (p : Event → Bool)
    (hw : ∀ m, p (Event.warn m) = false)
    (hu : ∀ r n, p (Event.uploadAsset r n) = false) :
    (attachFile env f).filter p = [] := by
  unfold attachFile
  split
  · split <;> simp [hw, hu]
  · simp [hw]

theorem filter_assetsTrace (env : Env) (fi : String) (p : Event → Bool)
    (hw : ∀ m, p (Event.warn m) = false)
    (hu : ∀ r n, p (Event.uploadAsset r n) = false) :
    (assetsTrace env fi).filter p = [] := by
  rw [assetsTrace_eq, List.filter_eq_nil_iff]
  intro e he
  rcases List.mem_flatMap.mp he with ⟨f, _, hmem⟩
  have h0 : (attachFile env f).filter p = [] := filter_attachFile env f p hw hu
  rw [List.filter_eq_nil_iff] at h0
  exact h0 e hmem

theorem filter_notifyTrace (inp : Inputs) (cl : String) (p : Event → Bool)
    (hp : ∀ u c, p (Event.httpPost u c) = false) :
    (notifyTrace inp cl).filter p = [] := by
  unfold notifyTrace
  split
  · rfl
  · simp [hp]

theorem assetsTrace_filter_upload (env : Env) (fi : String) :
    (assetsTrace env fi).filter isUpload =
      ((parseFiles fi).filter env.fileExists).map
        (fun f => Event.uploadAsset env.releaseId (basename f)) := by
  rw [assetsTrace_eq]
  induction parseFiles fi with
  | nil => rfl
  | cons f fs ih =>
    simp only [List.flatMap_cons, List.filter_append, List.filter_cons, ih]
    unfold attachFile
    by_cases hf : env.fileExists f
    · rw [if_pos hf]
      by_cases hu : env.uploadOk f
      · rw [if_pos hu]; simp [isUpload, hf]
      · rw [if_neg hu]; simp [isUpload, hf]
    · rw [if_neg hf]; simp [isUpload, hf]

theorem assetsTrace_filter_warn (env : Env) (fi : String) :
    (assetsTrace env fi).filter isWarn = (parseFiles fi).flatMap (attachWarnings env) := by
  rw [assetsTrace_eq]
  induction parseFiles fi with
  | nil => rfl
  | cons f fs ih =>
    simp only [List.flatMap_cons, List.filter_append, ih]
    unfold attachFile attachWarnings
    by_cases hf : env.fileExists f
    · rw [if_pos hf, if_pos hf]
      by_cases hu : env.uploadOk f
      · rw [if_pos hu, if_pos hu]; simp [isWarn]
      · rw [if_neg hu, if_neg hu]; simp [isWarn]
    · rw [if_neg hf, if_neg hf]; simp [isWarn]

/-! Shape of the run trace in each control-flow branch. -/

theorem run_eq_of_nil (inp : Inputs) (env : Env) (h : sortedTags env = []) :
    run inp env =
      Event.listTags :: (enrichTrace env ++ (createRefTrace inp env
        ++ [Event.setFailed "No valid tags with commit information found."])) := by
  unfold run
  rw [h]
  simp [List.append_assoc]

theorem run_eq_of_single (inp : Inputs) (env : Env) (d0 : DTag)
    (h : sortedTags env = [d0]) (hsha : d0.cm.sha ≠ "") :
    run inp env =
      Event.listTags :: (enrichTrace env ++ (createRefTrace inp env
        ++ ([Event.listCommits d0.cm.sha,
             Event.createRelease inp.version ("Release " ++ inp.version)
               (changelogSingle env d0.cm.sha)]
        ++ (assetsTrace env inp.filesInput
        ++ notifyTrace inp (changelogSingle env d0.cm.sha))))) := by
  unfold run
  rw [h]
  have hsha' : (d0.cm.sha == "") = false := by simp [hsha]
  simp [hsha', List.append_assoc]

theorem run_eq_of_twoPlus (inp : Inputs) (env : Env) (d0 d1 : DTag) (rest : List DTag)
    (h : sortedTags env = d0 :: d1 :: rest) (hsha : d0.cm.sha ≠ "") :
    run inp env =
      Event.listTags :: (enrichTrace env ++ (createRefTrace inp env
        ++ ([Event.getTag d1.cm.sha, Event.repoGetCommit (resolveSecond env d1)]
        ++ ((Event.listPulls ::
              (if (mergedPRs env (env.repoCommitDate (resolveSecond env d1))).isEmpty
               then [Event.compareCommits (resolveSecond env d1) d0.cm.sha] else []))
        ++ ([Event.createRelease inp.version ("Release " ++ inp.version)
               (changelogTwoPlus env (env.repoCommitDate (resolveSecond env d1))
                 (resolveSecond env d1) d0.cm.sha)]
        ++ (assetsTrace env inp.filesInput
        ++ notifyTrace inp (changelogTwoPlus env (env.repoCommitDate (resolveSecond env d1))
             (resolveSecond env d1) d0.cm.sha))))))) := by
  unfold run
  rw [h]
  have hsha' : (d0.cm.sha == "") = false := by simp [hsha]
  simp [hsha', List.append_assoc]

theorem run_eq_of_single_bad (inp : Inputs) (env : Env) (d0 : DTag)
    (h : sortedTags env = [d0]) (hsha : d0.cm.sha = "") :
    run inp env =
      Event.listTags :: (enrichTrace env ++ (createRefTrace inp env
        ++ [Event.setFailed "Latest tag does not have a commit SHA."])) := by
  unfold run
  rw [h]
  have hsha' : (d0.cm.sha == "") = true := by simp [hsha]
  simp [hsha', List.append_assoc]

theorem run_eq_of_twoPlus_bad (inp : Inputs) (env : Env) (d0 d1 : DTag) (rest : List DTag)
    (h : sortedTags env = d0 :: d1 :: rest) (hsha : d0.cm.sha = "") :
    run inp env =
      Event.listTags :: (enrichTrace env ++ (createRefTrace inp env
        ++ ([Event.getTag d1.cm.sha, Event.repoGetCommit (resolveSecond env d1)]
        ++ [Event.setFailed "Latest tag does not have a commit SHA."]))) := by
  unfold run
  rw [h]
  have hsha' : (d0.cm.sha == "") = true := by simp [hsha]
  simp [hsha', List.append_assoc]

theorem changeLogOf_single (env : Env) (d0 : DTag) (h : sortedTags env = [d0]) :
    changeLogOf env = changelogSingle env d0.cm.sha := by
  unfold changeLogOf
  rw [h]

theorem changeLogOf_twoPlus (env : Env) (d0 d1 : DTag) (rest : List DTag)
    (h : sortedTags env = d0 :: d1 :: rest) :
    changeLogOf env =
      changelogTwoPlus env (env.repoCommitDate (resolveSecond env d1))
        (resolveSecond env d1) d0.cm.sha := by
  unfold changeLogOf
  rw [h]

theorem run_filter_release_single (inp : Inputs) (env : Env) (d0 : DTag)
    (h : sortedTags env = [d0]) (hsha : d0.cm.sha ≠ "") :
    (run inp env).filter isCreateRelease =
      [Event.createRelease inp.version ("Release " ++ inp.version)
        (changelogSingle env d0.cm.sha)] := by
  rw [run_eq_of_single inp env d0 h hsha]
  have hA := filter_enrichTrace env isCreateRelease (fun _ => rfl)
  have hB := filter_createRefTrace inp env isCreateRelease (fun _ _ => rfl)
  have hC := filter_assetsTrace env inp.filesInput isCreateRelease (fun _ => rfl) (fun _ _ => rfl)
  have hD := filter_notifyTrace inp (changelogSingle env d0.cm.sha) isCreateRelease (fun _ _ => rfl)
  simp [List.filter_append, hA, hB, hC, hD, isCreateRelease]

theorem run_filter_release_twoPlus (inp : Inputs) (env : Env) (d0 d1 : DTag) (rest : List DTag)
    (h : sortedTags env = d0 :: d1 :: rest) (hsha : d0.cm.sha ≠ "") :
    (run inp env).filter isCreateRelease =
      [Event.createRelease inp.version ("Release " ++ inp.version)
        (changelogTwoPlus env (env.repoCommitDate (resolveSecond env d1))
          (resolveSecond env d1) d0.cm.sha)] := by
  rw [run_eq_of_twoPlus inp env d0 d1 rest h hsha]
  have hA := filter_enrichTrace env isCreateRelease (fun _ => rfl)
  have hB := filter_createRefTrace inp env isCreateRelease (fun _ _ => rfl)
  have hC := filter_assetsTrace env inp.filesInput isCreateRelease (fun _ => rfl) (fun _ _ => rfl)
  have hD := filter_notifyTrace inp
    (changelogTwoPlus env (env.repoCommitDate (resolveSecond env d1))
      (resolveSecond env d1) d0.cm.sha) isCreateRelease (fun _ _ => rfl)
  by_cases hmp : (mergedPRs env (env.repoCommitDate (resolveSecond env d1))).isEmpty
  · simp [List.filter_append, hA, hB, hC, hD, hmp, isCreateRelease]
  · simp [List.filter_append, hA, hB, hC, hD, hmp, isCreateRelease]

/-- Bridging the qualifying-PR existence statement and the emptiness test
the code performs on the filtered list. -/
theorem mergedPRs_isEmpty_iff (env : Env) (d : Nat) :
    (mergedPRs env d).isEmpty = true ↔
      ¬ ∃ pr ∈ env.pulls, prQualifies d pr = true := by
  unfold mergedPRs
  rw [List.isEmpty_iff, List.filter_eq_nil_iff]
  constructor
  · rintro hall ⟨pr, hmem, hq⟩
    exact hall pr hmem hq
  · intro hnex pr hmem hq
    exact hnex ⟨pr, hmem, hq⟩

/-! Claim theorems. -/

/-- C4: for every run, if the requested version exactly matches the name of
some tag in the tag list then no create-ref call is made; otherwise exactly
one create-ref call is made, with ref `refs/tags/<version>` pointing at the
current invocation's commit sha. -/
theorem createRef_calls (inp : Inputs) (env : Env) :
    (run inp env).filter isCreateRef =
      if tagExists inp.version env then []
      else [Event.createRef ("refs/tags/" ++ inp.version) inp.contextSha] := by
  have key : (run inp env).filter isCreateRef = createRefTrace inp env := by
    have henrich := filter_enrichTrace env isCreateRef (fun _ => rfl)
    have hself := filter_createRefTrace_self inp env
    have hassets := filter_assetsTrace env inp.filesInput isCreateRef (fun _ => rfl) (fun _ _ => rfl)
    have hnot : ∀ cl, (notifyTrace inp cl).filter isCreateRef = [] :=
      fun cl => filter_notifyTrace inp cl isCreateRef (fun _ _ => rfl)
    rcases hst : sortedTags env with _ | ⟨d0, _ | ⟨d1, rest⟩⟩
    · rw [run_eq_of_nil inp env hst]
      simp [List.filter_append, henrich, hself, isCreateRef]
    · by_cases hsha : d0.cm.sha = ""
      · rw [run_eq_of_single_bad inp env d0 hst hsha]
        simp [List.filter_append, henrich, hself, isCreateRef]
      · rw [run_eq_of_single inp env d0 hst hsha]
        simp [List.filter_append, henrich, hself, hassets, hnot, isCreateRef]
    · by_cases hsha : d0.cm.sha = ""
      · rw [run_eq_of_twoPlus_bad inp env d0 d1 rest hst hsha]
        simp [List.filter_append, henrich, hself, isCreateRef]
      · rw [run_eq_of_twoPlus inp env d0 d1 rest hst hsha]
        by_cases hmp : (mergedPRs env (env.repoCommitDate (resolveSecond env d1))).isEmpty
        · simp [List.filter_append, henrich, hself, hassets, hnot, hmp, isCreateRef]
        · simp [List.filter_append, henrich, hself, hassets, hnot, hmp, isCreateRef]
  rw [key]
  rfl

/-- C5: for every run in which no tag with a resolvable commit date remains
after filtering, the run reports the insufficient-tags failure and makes no
release-creation call. -/
theorem noValidTags_fails_without_release (inp : Inputs) (env : Env)
    (h : sortedTags env = []) :
    Event.setFailed "No valid tags with commit information found." ∈ run inp env ∧
    (run inp env).filter isCreateRelease = [] := by
  rw [run_eq_of_nil inp env h]
  have henrich := filter_enrichTrace env isCreateRelease (fun _ => rfl)
  have href := filter_createRefTrace inp env isCreateRelease (fun _ _ => rfl)
  constructor
  · simp
  · simp [List.filter_append, henrich, href, isCreateRelease]

unseal List.merge List.mergeSort in
/-- C5 witness: a concrete run with an empty tag list reports the
insufficient-tags failure and creates no release. -/
theorem noValidTags_fails_without_release_witness :
    sortedTags envNoTags = [] ∧
    (Event.setFailed "No valid tags with commit information found." ∈ run inpBase envNoTags ∧
      (run inpBase envNoTags).filter isCreateRelease = []) :=
  ⟨rfl, noValidTags_fails_without_release inpBase envNoTags rfl⟩

/-- C9: tag creation is not withheld on a later failure: when the requested
version tag is absent and no dated tag remains, the full trace is the tag
listing, the enrichment calls, the create-ref call, and only then the
no-valid-tags failure — the tag ref is created even though the run fails
before creating a release. -/
theorem createRef_precedes_validTags_check (inp : Inputs) (env : Env)
    (habsent : tagExists inp.version env = false) (h : sortedTags env = []) :
    run inp env =
      Event.listTags :: (enrichTrace env
        ++ [Event.createRef ("refs/tags/" ++ inp.version) inp.contextSha,
            Event.setFailed "No valid tags with commit information found."]) := by
  rw [run_eq_of_nil inp env h]
  unfold createRefTrace
  rw [habsent]
  simp

unseal List.merge List.mergeSort in
/-- C9 witness: a concrete tag-absent, zero-dated-tags run creates the tag
ref and then fails. -/
theorem createRef_precedes_validTags_check_witness :
    tagExists "v1" envNoTags = false ∧
    run inpBase envNoTags =
      [Event.listTags, Event.createRef "refs/tags/v1" "sha9",
       Event.setFailed "No valid tags with commit information found."] :=
  ⟨rfl, by
    rw [createRef_precedes_validTags_check inpBase envNoTags rfl rfl]
    rfl⟩

/-- C6: for every run with exactly one dated tag (whose commit sha is
non-empty), the changelog is built from the commits reachable from that
tag, rendered as commit lines, and no pull-request listing (and hence no
PR filtering) is attempted. -/
theorem singleTag_commit_changelog (inp : Inputs) (env : Env) (d0 : DTag)
    (h : sortedTags env = [d0]) (hsha : d0.cm.sha ≠ "") :
    (run inp env).filter isListPulls = [] ∧
    Event.listCommits d0.cm.sha ∈ run inp env ∧
    (run inp env).filter isCreateRelease =
      [Event.createRelease inp.version ("Release " ++ inp.version)
        (String.intercalate "\n" ((env.listCommits d0.cm.sha).map commitLine))] := by
  refine ⟨?_, ?_, ?_⟩
  · rw [run_eq_of_single inp env d0 h hsha]
    have hA := filter_enrichTrace env isListPulls (fun _ => rfl)
    have hB := filter_createRefTrace inp env isListPulls (fun _ _ => rfl)
    have hC := filter_assetsTrace env inp.filesInput isListPulls (fun _ => rfl) (fun _ _ => rfl)
    have hD := filter_notifyTrace inp (changelogSingle env d0.cm.sha) isListPulls (fun _ _ => rfl)
    simp [List.filter_append, hA, hB, hC, hD, isListPulls]
  · rw [run_eq_of_single inp env d0 h hsha]
    simp
  · rw [run_filter_release_single inp env d0 h hsha]
    rfl

unseal List.merge List.mergeSort in
/-- C6 witness: a concrete single-dated-tag run lists that tag's commits,
never lists PRs, and renders commit lines. -/
theorem singleTag_commit_changelog_witness :
    sortedTags envOne = [dtB] ∧ dtB.cm.sha ≠ "" ∧
    ((run inpBase envOne).filter isListPulls = [] ∧
      Event.listCommits dtB.cm.sha ∈ run inpBase envOne ∧
      (run inpBase envOne).filter isCreateRelease =
        [Event.createRelease inpBase.version ("Release " ++ inpBase.version)
          (String.intercalate "\n" ((envOne.listCommits dtB.cm.sha).map commitLine))]) :=
  ⟨rfl, by decide, singleTag_commit_changelog inpBase envOne dtB rfl (by decide)⟩

/-- C2: for every run with at least two dated tags (and a non-empty latest
sha), the release body consists of PR lines exactly when some closed PR
has a non-null merge timestamp strictly after the second-to-last tag's
resolved commit date; otherwise it consists of commit lines over the
compare range from the second-to-last tag's commit (exclusive, the base)
to the latest tag's commit (inclusive, the head). -/
theorem changelog_pr_iff (inp : Inputs) (env : Env) (d0 d1 : DTag) (rest : List DTag)
    (h : sortedTags env = d0 :: d1 :: rest) (hsha : d0.cm.sha ≠ "") :
    ((∃ pr ∈ env.pulls, prQualifies (env.repoCommitDate (resolveSecond env d1)) pr = true) →
      (run inp env).filter isCreateRelease =
        [Event.createRelease inp.version ("Release " ++ inp.version)
          (String.intercalate "\n"
            ((mergedPRs env (env.repoCommitDate (resolveSecond env d1))).map prLine))]) ∧
    ((¬ ∃ pr ∈ env.pulls, prQualifies (env.repoCommitDate (resolveSecond env d1)) pr = true) →
      (run inp env).filter isCreateRelease =
        [Event.createRelease inp.version ("Release " ++ inp.version)
          (String.intercalate "\n"
            ((env.compareCommits (resolveSecond env d1) d0.cm.sha).map commitLine))]) := by
  rw [run_filter_release_twoPlus inp env d0 d1 rest h hsha]
  constructor
  · intro hex
    have hne : (mergedPRs env (env.repoCommitDate (resolveSecond env d1))).isEmpty = false := by
      rw [Bool.eq_false_iff]
      intro hT
      exact (mergedPRs_isEmpty_iff env _).mp hT hex
    simp [changelogTwoPlus, hne]
  · intro hnex
    have hem : (mergedPRs env (env.repoCommitDate (resolveSecond env d1))).isEmpty = true :=
      (mergedPRs_isEmpty_iff env _).mpr hnex
    simp [changelogTwoPlus, hem]

unseal List.merge List.mergeSort in
/-- C2 witness: in a concrete two-tag run with one qualifying merged PR,
the release body is the PR line. -/
theorem changelog_pr_iff_witness :
    sortedTags envTwo = [dtB, dtA] ∧ dtB.cm.sha ≠ "" ∧
    (∃ pr ∈ envTwo.pulls,
      prQualifies (envTwo.repoCommitDate (resolveSecond envTwo dtA)) pr = true) ∧
    (run inpBase envTwo).filter isCreateRelease =
      [Event.createRelease inpBase.version ("Release " ++ inpBase.version)
        (String.intercalate "\n"
          ((mergedPRs envTwo (envTwo.repoCommitDate (resolveSecond envTwo dtA))).map prLine))] :=
  ⟨rfl, by decide, ⟨prX, by decide, by decide⟩,
    (changelog_pr_iff inpBase envTwo dtB dtA [] rfl (by decide)).1 ⟨prX, by decide, by decide⟩⟩

/-- C3 (amended): whenever the changelog is PR-based, its lines appear in
the order the closed-PR listing returned them (the API's update-time,
newest-first order, which the filter preserves), each rendered as
`- <title> by @<author> in [#<number>](<url>)`; they are newest-first by
merge timestamp whenever the response order agrees with merge-time order. -/
theorem prLines_follow_response_order (inp : Inputs) (env : Env) (d0 d1 : DTag)
    (rest : List DTag)
    (h : sortedTags env = d0 :: d1 :: rest) (hsha : d0.cm.sha ≠ "")
    (hex : ∃ pr ∈ env.pulls,
      prQualifies (env.repoCommitDate (resolveSecond env d1)) pr = true) :
    (run inp env).filter isCreateRelease =
      [Event.createRelease inp.version ("Release " ++ inp.version)
        (String.intercalate "\n"
          ((env.pulls.filter
            (prQualifies (env.repoCommitDate (resolveSecond env d1)))).map prLine))] ∧
    (List.Pairwise (fun p q => mergedAtD q ≤ mergedAtD p) env.pulls →
      List.Pairwise (fun p q => mergedAtD q ≤ mergedAtD p)
        (mergedPRs env (env.repoCommitDate (resolveSecond env d1)))) := by
  constructor
  · rw [run_filter_release_twoPlus inp env d0 d1 rest h hsha]
    have hne : (mergedPRs env (env.repoCommitDate (resolveSecond env d1))).isEmpty = false := by
      rw [Bool.eq_false_iff]
      intro hT
      exact (mergedPRs_isEmpty_iff env _).mp hT hex
    simp only [changelogTwoPlus, hne, Bool.false_eq_true, if_false]
    rfl
  · intro hpw
    exact hpw.filter _

unseal List.merge List.mergeSort in
/-- C3 counterexample: in this run the changelog is PR-based, both PRs
qualify, yet the first rendered line belongs to the PR with the smaller
merge timestamp — the lines are in response (update-time) order, not
newest-first by merge timestamp. -/
theorem prLines_not_merge_ordered_cex :
    (run inpBase envCex).filter isCreateRelease =
      [Event.createRelease "v1" "Release v1"
        ("- older by @alice in [#1](uA)\n- newer by @bob in [#2](uB)")] ∧
    mergedPRs envCex 0 = [prOld, prNew] ∧
    mergedAtD prOld < mergedAtD prNew ∧
    ¬ List.Pairwise (fun p q => mergedAtD q ≤ mergedAtD p) (mergedPRs envCex 0) := by
  refine ⟨rfl, rfl, by decide, ?_⟩
  intro hpw
  have h1 := (List.pairwise_cons.mp hpw).1 prNew (by decide)
  revert h1
  decide

unseal List.merge List.mergeSort in
/-- C3 witness: a concrete qualifying run where the release body is the
response-ordered PR lines, and the preserved order is newest-first when
the response is. -/
theorem prLines_follow_response_order_witness :
    sortedTags envTwo = [dtB, dtA] ∧
    ((run inpHook envTwo).filter isCreateRelease =
      [Event.createRelease inpHook.version ("Release " ++ inpHook.version)
        (String.intercalate "\n"
          ((envTwo.pulls.filter
            (prQualifies (envTwo.repoCommitDate (resolveSecond envTwo dtA)))).map prLine))] ∧
    (List.Pairwise (fun p q => mergedAtD q ≤ mergedAtD p) envTwo.pulls →
      List.Pairwise (fun p q => mergedAtD q ≤ mergedAtD p)
        (mergedPRs envTwo (envTwo.repoCommitDate (resolveSecond envTwo dtA))))) :=
  ⟨rfl, prLines_follow_response_order inpHook envTwo dtB dtA [] rfl (by decide)
    ⟨prX, by decide, by decide⟩⟩

theorem notifyTrace_filter_post (inp : Inputs) (cl : String) :
    (notifyTrace inp cl).filter isPost = notifyTrace inp cl := by
  unfold notifyTrace
  split
  · rfl
  · simp [isPost]

theorem run_filter_post_good (inp : Inputs) (env : Env) (d0 : DTag) (rest : List DTag)
    (h : sortedTags env = d0 :: rest) (hsha : d0.cm.sha ≠ "") :
    (run inp env).filter isPost = notifyTrace inp (changeLogOf env) := by
  have hA := filter_enrichTrace env isPost (fun _ => rfl)
  have hB := filter_createRefTrace inp env isPost (fun _ _ => rfl)
  have hC := filter_assetsTrace env inp.filesInput isPost (fun _ => rfl) (fun _ _ => rfl)
  cases rest with
  | nil =>
    rw [run_eq_of_single inp env d0 h hsha, changeLogOf_single env d0 h]
    simp [List.filter_append, hA, hB, hC, notifyTrace_filter_post, isPost]
  | cons d1 rest' =>
    rw [run_eq_of_twoPlus inp env d0 d1 rest' h hsha, changeLogOf_twoPlus env d0 d1 rest' h]
    by_cases hmp : (mergedPRs env (env.repoCommitDate (resolveSecond env d1))).isEmpty
    · simp [List.filter_append, hA, hB, hC, notifyTrace_filter_post, hmp, isPost]
    · simp [List.filter_append, hA, hB, hC, notifyTrace_filter_post, hmp, isPost]

theorem run_filter_post_cases (inp : Inputs) (env : Env) :
    (run inp env).filter isPost = [] ∨
    (run inp env).filter isPost = notifyTrace inp (changeLogOf env) := by
  have hA := filter_enrichTrace env isPost (fun _ => rfl)
  have hB := filter_createRefTrace inp env isPost (fun _ _ => rfl)
  rcases hst : sortedTags env with _ | ⟨d0, rest⟩
  · left
    rw [run_eq_of_nil inp env hst]
    simp [List.filter_append, hA, hB, isPost]
  · by_cases hsha : d0.cm.sha = ""
    · left
      cases rest with
      | nil =>
        rw [run_eq_of_single_bad inp env d0 hst hsha]
        simp [List.filter_append, hA, hB, isPost]
      | cons d1 rest' =>
        rw [run_eq_of_twoPlus_bad inp env d0 d1 rest' hst hsha]
        simp [List.filter_append, hA, hB, isPost]
    · right
      exact run_filter_post_good inp env d0 rest hst hsha

/-- C8: if no webhook URL is provided the run makes no notification HTTP
call; with a URL provided, a completed run issues exactly one POST, to that
URL, carrying the Teams card built from the given name, version and the
rendered changelog. -/
theorem webhook_notification (inp : Inputs) (env : Env) :
    (inp.webhookUrl = "" → (run inp env).filter isPost = []) ∧
    (∀ d0 rest, sortedTags env = d0 :: rest → d0.cm.sha ≠ "" → inp.webhookUrl ≠ "" →
      (run inp env).filter isPost =
        [Event.httpPost inp.webhookUrl (teamsCard inp.name inp.version (changeLogOf env))]) := by
  constructor
  · intro hurl
    rcases run_filter_post_cases inp env with hc | hc
    · exact hc
    · rw [hc]
      unfold notifyTrace
      rw [if_pos (by simp [hurl])]
  · intro d0 rest h hsha hurl
    rw [run_filter_post_good inp env d0 rest h hsha]
    unfold notifyTrace
    rw [if_neg (by simp [hurl])]

unseal List.merge List.mergeSort in
/-- C8 witness: a concrete run with no webhook URL posts nothing; the same
environment with a webhook URL posts exactly the Teams card. -/
theorem webhook_notification_witness :
    (inpBase.webhookUrl = "" ∧ (run inpBase envTwo).filter isPost = []) ∧
    (sortedTags envTwo = [dtB, dtA] ∧ inpHook.webhookUrl ≠ "" ∧
      (run inpHook envTwo).filter isPost =
        [Event.httpPost inpHook.webhookUrl
          (teamsCard inpHook.name inpHook.version (changeLogOf envTwo))]) :=
  ⟨⟨rfl, (webhook_notification inpBase envTwo).1 rfl⟩,
   ⟨rfl, by decide,
    (webhook_notification inpHook envTwo).2 dtB [dtA] rfl (by decide) (by decide)⟩⟩

/-- C10: the notification payload never carries an empty body — in every
run whose rendered changelog is empty, any POST the run issues has the
literal text "No changelog available.". -/
theorem notification_text_fallback (inp : Inputs) (env : Env)
    (h : changeLogOf env = "") :
    ∀ url p, Event.httpPost url p ∈ run inp env → p.text = "No changelog available." := by
  intro url p hp
  have hmem : Event.httpPost url p ∈ (run inp env).filter isPost :=
    List.mem_filter.mpr ⟨hp, rfl⟩
  rcases run_filter_post_cases inp env with hc | hc
  · rw [hc] at hmem
    simp at hmem
  · rw [hc] at hmem
    unfold notifyTrace at hmem
    by_cases hurl : inp.webhookUrl == ""
    · rw [if_pos hurl] at hmem
      simp at hmem
    · rw [if_neg hurl] at hmem
      simp at hmem
      rw [hmem.2]
      unfold teamsCard teamsText
      rw [h]
      rfl

unseal List.merge List.mergeSort in
/-- C10 witness: a concrete empty-changelog run posts a card whose text is
the fallback string. -/
theorem notification_text_fallback_witness :
    changeLogOf envEmptyCL = "" ∧
    Event.httpPost "https://h" (teamsCard "p" "v9" "") ∈ run inpHook envEmptyCL ∧
    (teamsCard "p" "v9" "").text = "No changelog available." :=
  ⟨rfl, by decide,
   notification_text_fallback inpHook envEmptyCL rfl "https://h" (teamsCard "p" "v9" "")
     (by decide)⟩

theorem run_filter_assets_only (inp : Inputs) (env : Env) (d0 : DTag) (rest : List DTag)
    (h : sortedTags env = d0 :: rest) (hsha : d0.cm.sha ≠ "") (p : Event → Bool)
    (h1 : p Event.listTags = false) (h2 : ∀ s, p (Event.getCommit s) = false)
    (h3 : ∀ r s, p (Event.createRef r s) = false) (h4 : ∀ s, p (Event.getTag s) = false)
    (h5 : ∀ s, p (Event.repoGetCommit s) = false) (h6 : p Event.listPulls = false)
    (h7 : ∀ b hd, p (Event.compareCommits b hd) = false)
    (h8 : ∀ s, p (Event.listCommits s) = false)
    (h9 : ∀ a b c, p (Event.createRelease a b c) = false)
    (h10 : ∀ u c, p (Event.httpPost u c) = false) :
    (run inp env).filter p = (assetsTrace env inp.filesInput).filter p := by
  have hA := filter_enrichTrace env p h2
  have hB := filter_createRefTrace inp env p h3
  have hD : ∀ cl, (notifyTrace inp cl).filter p = [] :=
    fun cl => filter_notifyTrace inp cl p h10
  cases rest with
  | nil =>
    rw [run_eq_of_single inp env d0 h hsha]
    simp [List.filter_append, hA, hB, hD, h1, h8, h9]
  | cons d1 rest' =>
    rw [run_eq_of_twoPlus inp env d0 d1 rest' h hsha]
    by_cases hmp : (mergedPRs env (env.repoCommitDate (resolveSecond env d1))).isEmpty
    · simp [List.filter_append, hA, hB, hD, h1, h4, h5, h6, h7, h9, hmp]
    · simp [List.filter_append, hA, hB, hD, h1, h4, h5, h6, h7, h9, hmp]

/-- C7: in every completed run, asset attachment is per-file: a missing
file yields exactly its warning and no upload call; an upload is attempted
for every existing file regardless of other files' failures; a failed
upload yields its warning; and no per-file outcome makes the run fail —
the run emits no failure and still creates exactly one release. -/
theorem assets_perFile (inp : Inputs) (env : Env) (d0 : DTag) (rest : List DTag)
    (h : sortedTags env = d0 :: rest) (hsha : d0.cm.sha ≠ "") :
    (run inp env).filter isSetFailed = [] ∧
    (run inp env).filter isUpload =
      ((parseFiles inp.filesInput).filter env.fileExists).map
        (fun f => Event.uploadAsset env.releaseId (basename f)) ∧
    (run inp env).filter isWarn = (parseFiles inp.filesInput).flatMap (attachWarnings env) ∧
    ((run inp env).filter isCreateRelease).length = 1 := by
  refine ⟨?_, ?_, ?_, ?_⟩
  · rw [run_filter_assets_only inp env d0 rest h hsha isSetFailed rfl (fun _ => rfl)
      (fun _ _ => rfl) (fun _ => rfl) (fun _ => rfl) rfl (fun _ _ => rfl) (fun _ => rfl)
      (fun _ _ _ => rfl) (fun _ _ => rfl)]
    exact filter_assetsTrace env inp.filesInput isSetFailed (fun _ => rfl) (fun _ _ => rfl)
  · rw [run_filter_assets_only inp env d0 rest h hsha isUpload rfl (fun _ => rfl)
      (fun _ _ => rfl) (fun _ => rfl) (fun _ => rfl) rfl (fun _ _ => rfl) (fun _ => rfl)
      (fun _ _ _ => rfl) (fun _ _ => rfl)]
    exact assetsTrace_filter_upload env inp.filesInput
  · rw [run_filter_assets_only inp env d0 rest h hsha isWarn rfl (fun _ => rfl)
      (fun _ _ => rfl) (fun _ => rfl) (fun _ => rfl) rfl (fun _ _ => rfl) (fun _ => rfl)
      (fun _ _ _ => rfl) (fun _ _ => rfl)]
    exact assetsTrace_filter_warn env inp.filesInput
  · cases rest with
    | nil => rw [run_filter_release_single inp env d0 h hsha]; rfl
    | cons d1 rest' => rw [run_filter_release_twoPlus inp env d0 d1 rest' h hsha]; rfl

unseal List.merge List.mergeSort in
/-- C7 witness: the concrete run uploads `a.txt`, warns about and skips
`missing.txt`, attempts `c.bin` and warns when its upload fails, emits no
failure, and creates one release. -/
theorem assets_perFile_witness :
    sortedTags envFiles = [dtB, dtA] ∧
    parseFiles inpFiles.filesInput = ["a.txt", "missing.txt", "c.bin"] ∧
    ((run inpFiles envFiles).filter isSetFailed = [] ∧
      (run inpFiles envFiles).filter isUpload =
        ((parseFiles inpFiles.filesInput).filter envFiles.fileExists).map
          (fun f => Event.uploadAsset envFiles.releaseId (basename f)) ∧
      (run inpFiles envFiles).filter isWarn =
        (parseFiles inpFiles.filesInput).flatMap (attachWarnings envFiles) ∧
      ((run inpFiles envFiles).filter isCreateRelease).length = 1) :=
  ⟨rfl, rfl, assets_perFile inpFiles envFiles dtB [dtA] rfl (by decide)⟩

theorem tagLE_trans : ∀ a b c : DTag, tagLE a b = true → tagLE b c = true → tagLE a c = true := by
  intro a b c hab hbc
  unfold tagLE at *
  rw [decide_eq_true_iff] at *
  omega

theorem tagLE_total : ∀ a b : DTag, (tagLE a b || tagLE b a) = true := by
  intro a b
  unfold tagLE
  rcases Nat.le_total b.date a.date with hle | hle
  · simp [hle]
  · simp [hle]

theorem sortedTags_perm (env : Env) :
    (sortedTags env).Perm (datedTags (tagsWithCommits env)) :=
  List.mergeSort_perm _ tagLE

theorem sortedTags_pairwise (env : Env) :
    List.Pairwise (fun a b => tagLE a b = true) (sortedTags env) :=
  List.sorted_mergeSort tagLE_trans tagLE_total (datedTags (tagsWithCommits env))

theorem tagLE_date {a b : DTag} (h : tagLE a b = true) : b.date ≤ a.date := by
  unfold tagLE at h
  rwa [decide_eq_true_iff] at h

/-- C1: with at least two dated tags, the element the code selects as the
second-to-last tag (`sortedTags[1]`) is one of the dated tags, the top
element's date is the largest commit date, the selected element's date is
the second-largest commit date (the maximum after removing one copy of the
largest), and the sequence of sorted dates does not depend on the order in
which the tags appear in the input list. -/
theorem secondToLast_secondLargest (env : Env) (d0 d1 : DTag)
    (h0 : (sortedTags env)[0]? = some d0) (h1 : (sortedTags env)[1]? = some d1) :
    d1 ∈ datedTags (tagsWithCommits env) ∧
    (d0.date ∈ allDates env ∧ ∀ d ∈ allDates env, d ≤ d0.date) ∧
    (d1.date ∈ (allDates env).erase d0.date ∧
      ∀ d ∈ (allDates env).erase d0.date, d ≤ d1.date) ∧
    (∀ tags', tags'.Perm env.tags →
      (sortedTags { env with tags := tags' }).map DTag.date =
        (sortedTags env).map DTag.date) := by
  have hperm := sortedTags_perm env
  have hpw := sortedTags_pairwise env
  cases hs : sortedTags env with
  | nil => rw [hs] at h0; simp at h0
  | cons a tl =>
    cases tl with
    | nil => rw [hs] at h1; simp at h1
    | cons b tl' =>
      rw [hs] at h0 h1 hperm hpw
      simp only [List.getElem?_cons_zero, List.getElem?_cons_succ, Option.some_inj] at h0 h1
      subst h0
      subst h1
      have hmemiff : ∀ x : DTag, x ∈ a :: b :: tl' ↔ x ∈ datedTags (tagsWithCommits env) :=
        fun x => hperm.mem_iff
      have hmapperm : ((a :: b :: tl').map DTag.date).Perm (allDates env) :=
        hperm.map DTag.date
      have heraseperm :
          (((a :: b :: tl').map DTag.date).erase a.date).Perm
            ((allDates env).erase a.date) :=
        hmapperm.erase a.date
      have herasehead :
          ((a :: b :: tl').map DTag.date).erase a.date = b.date :: tl'.map DTag.date := by
        simp [List.erase_cons_head]
      rw [herasehead] at heraseperm
      have hpw0 := List.pairwise_cons.mp hpw
      have hpw1 := List.pairwise_cons.mp hpw0.2
      refine ⟨?_, ⟨?_, ?_⟩, ⟨?_, ?_⟩, ?_⟩
      · exact (hmemiff b).mp (by simp)
      · exact List.mem_map.mpr ⟨a, (hmemiff a).mp (by simp), rfl⟩
      · intro d hd
        rcases List.mem_map.mp hd with ⟨dt, hdt, rfl⟩
        have hdt' : dt ∈ a :: b :: tl' := (hmemiff dt).mpr hdt
        rcases List.mem_cons.mp hdt' with hq | hq
        · rw [hq]
        · exact tagLE_date (hpw0.1 dt hq)
      · exact heraseperm.mem_iff.mp (by simp)
      · intro d hd
        have hd' : d ∈ b.date :: tl'.map DTag.date := heraseperm.mem_iff.mpr hd
        rcases List.mem_cons.mp hd' with hq | hq
        · rw [hq]
        · rcases List.mem_map.mp hq with ⟨dt, hdt, rfl⟩
          exact tagLE_date (hpw1.1 dt hdt)
      · intro tags' hp
        rw [← hs]
        have hfm : (tagsWithCommits { env with tags := tags' }).Perm (tagsWithCommits env) :=
          hp.filterMap (enrichTag env)
        have hdl : (datedTags (tagsWithCommits { env with tags := tags' })).Perm
            (datedTags (tagsWithCommits env)) :=
          hfm.filterMap _
        have hperm' : ((sortedTags { env with tags := tags' }).map DTag.date).Perm
            ((sortedTags env).map DTag.date) :=
          ((sortedTags_perm _).trans (hdl.trans (sortedTags_perm env).symm)).map DTag.date
        have hsorted : ∀ e : Env, List.Pairwise (fun x y : Nat => y ≤ x)
            ((sortedTags e).map DTag.date) :=
          fun e => (sortedTags_pairwise e).map DTag.date (fun _ _ hr => tagLE_date hr)
        haveI : IsAntisymm Nat (fun x y : Nat => y ≤ x) :=
          ⟨fun x y hxy hyx => Nat.le_antisymm hyx hxy⟩
        exact List.eq_of_perm_of_sorted hperm' (hsorted _) (hsorted env)

unseal List.merge List.mergeSort in
/-- C1 witness: in a concrete two-tag environment, the selected
second-to-last tag is the dated tag with the second-largest date. -/
theorem secondToLast_secondLargest_witness :
    (sortedTags envTwo)[0]? = some dtB ∧ (sortedTags envTwo)[1]? = some dtA ∧
    (dtA ∈ datedTags (tagsWithCommits envTwo) ∧
      (dtB.date ∈ allDates envTwo ∧ ∀ d ∈ allDates envTwo, d ≤ dtB.date) ∧
      (dtA.date ∈ (allDates envTwo).erase dtB.date ∧
        ∀ d ∈ (allDates envTwo).erase dtB.date, d ≤ dtA.date) ∧
      (∀ tags', tags'.Perm envTwo.tags →
        (sortedTags { envTwo with tags := tags' }).map DTag.date =
          (sortedTags envTwo).map DTag.date)) :=
  ⟨rfl, rfl, secondToLast_secondLargest envTwo dtB dtA rfl rfl⟩

end CreateRelease
